import Mathlib

/-!
# keyvan-dadash/http-server: file server and forwarding proxy

A shallow embedding of `cmd/http_server.go` and `cmd/proxy/proxy.go`.

* Go strings that are inspected byte by byte (paths, file names, URLs) are
  `List Char`; the path functions only ever look for the ASCII bytes `/`
  and `.`.  Strings that are only copied (method, protocol, header values)
  are `String`.
* The connection is represented by what the handler does with it: the
  result of `http.ReadRequest` on its input is an argument, and the
  responses passed to `Response.Write` are recorded, with the file system
  calls and upstream requests, in an event log.
* The result of `ParseMultipartForm` and `FormFile("file")` on the request
  body is a field of the request.
* The file system is an explicit state: a table from absolute locations to
  nodes, with Unix path lookup and no symbolic links.  `os.Open`, `os.Stat`
  and `os.Create` fail for the structural reasons (nothing there, a file
  where a directory is needed, a directory where a file is needed) and
  whenever the environment `Env` says so (a path the kernel rejects, a
  missing permission, a full device); `io.Copy` fails when `Env` says so.
* The functions of `strings`, `path/filepath`, `os` and `net/http` the
  handlers call are written out from their Go definitions.
* A nil `*http.Request` is `none`; dereferencing it is `Outcome.panicked`.
-/

namespace HttpServer

/-- Go string inspected byte by byte. -/
abbrev GoStr := List Char

/-- Byte content of a file or of an upload. -/
abbrev Bytes := List (Fin 256)

/-! ## package strings -/

namespace Strings

/-- Go `strings.HasSuffix(s, "/")`. -/
def HasSuffixSlash (s : GoStr) : Bool :=
  s.getLast? = some '/'

/-- Go `strings.TrimPrefix(s, "/")`: one leading slash is removed. -/
def TrimPrefixSlash : GoStr → GoStr
  | '/' :: rest => rest
  | s => s

/-- Go `strings.Split(s, "/")`. -/
def splitSlash : GoStr → List GoStr
  | [] => [[]]
  | c :: cs =>
    if c = '/' then [] :: splitSlash cs
    else
      match splitSlash cs with
      | [] => [[c]]
      | h :: t => (c :: h) :: t

/-- Go `strings.Join(elems, "/")`. -/
def joinSlash : List GoStr → GoStr
  | [] => []
  | [e] => e
  | e :: es => e ++ '/' :: joinSlash es

end Strings

/-! ## package path/filepath (Unix) -/

namespace Filepath

open Strings

/-- Loop of `filepath.Ext`, run over the reversed path: `acc` is the suffix
already passed.  Stops with no extension at a separator, returns the suffix
from the first dot met. -/
def extRev : List Char → List Char → List Char
  | [], _ => []
  | c :: rest, acc =>
    if c = '/' then []
    else if c = '.' then '.' :: acc
    else extRev rest (c :: acc)

/-- Go `filepath.Ext`: the suffix beginning at the final dot in the final
element of the path; empty if there is no dot. -/
def Ext (path : GoStr) : GoStr := extRev path.reverse []

/-- The path element `..`. -/
def dotdot : GoStr := ['.', '.']

/-- An ordinary file name: a single path element other than `.` and `..`. -/
def plainName (n : GoStr) : Prop :=
  n ≠ [] ∧ n ≠ ['.'] ∧ n ≠ dotdot ∧ '/' ∉ n

instance (n : GoStr) : Decidable (plainName n) := by
  unfold plainName
  infer_instance

/-- One element of the `filepath.Clean` loop.  `st` is the output written so
far as a stack of elements, last written first.  Empty and `.` elements are
dropped; `..` removes the last real element when there is one
(`out.w > dotdot`), is appended when the path is not rooted, and is dropped
at the root; any other element is appended. -/
def cleanStep (rooted : Bool) (st : List GoStr) (c : GoStr) : List GoStr :=
  if c = [] ∨ c = ['.'] then st
  else if c = dotdot then
    match st with
    | top :: rest =>
      if top ≠ dotdot then rest
      else if rooted then st else dotdot :: st
    | [] => if rooted then [] else [dotdot]
  else c :: st

/-- Invariant of the element stack of `Clean`: no empty, `.` or
slash-containing element, and no `..` when the path is rooted. -/
def StackOK (rooted : Bool) (st : List GoStr) : Prop :=
  (∀ x ∈ st, x ≠ [] ∧ x ≠ ['.'] ∧ '/' ∉ x) ∧ (rooted = true → ∀ x ∈ st, x ≠ dotdot)

/-- Output of `filepath.Clean` from the final element stack. -/
def render (rooted : Bool) (elems : List GoStr) : GoStr :=
  let out := (if rooted then ['/'] else []) ++ joinSlash elems
  if out = [] then ['.'] else out

/-- Go `filepath.Clean` on Unix. -/
def Clean (path : GoStr) : GoStr :=
  if path = [] then ['.']
  else
    let rooted := path.head? = some '/'
    render rooted ((splitSlash path).foldl (cleanStep rooted) []).reverse

/-- Go `filepath.Join(a, b)`: empty leading elements are ignored, the rest is
joined with `/` and cleaned. -/
def Join (a b : GoStr) : GoStr :=
  if a ≠ [] then Clean (a ++ '/' :: b)
  else if b ≠ [] then Clean b
  else []

end Filepath

/-! ## The file system -/

/-- Absolute location: the names from the root directory down. -/
abbrev Loc := List GoStr

/-- What a location holds. -/
inductive Node where
  | file (data : Bytes)
  | dir
  deriving DecidableEq, Repr

/-- File system state: the first binding of a location counts. -/
abbrev FS := List (Loc × Node)

namespace FS

/-- Node at a location. -/
def get : FS → Loc → Option Node
  | [], _ => none
  | (q, n) :: rest, p => if q = p then some n else get rest p

/-- Bind a location to a node. -/
def set (fs : FS) (p : Loc) (n : Node) : FS := (p, n) :: fs

/-- Lookup of one path element `c` in the directory `cur`.  Fails (ENOTDIR,
ENOENT) unless `cur` is a directory. -/
def step (fs : FS) (cur : Loc) (c : GoStr) : Option Loc :=
  match fs.get cur with
  | some Node.dir =>
    if c = [] ∨ c = ['.'] then some cur
    else if c = Filepath.dotdot then some cur.dropLast
    else some (cur ++ [c])
  | _ => none

/-- Lookup of a sequence of path elements. -/
def walk (fs : FS) : Loc → List GoStr → Option Loc
  | cur, [] => some cur
  | cur, c :: cs => (step fs cur c).bind (fun nxt => walk fs nxt cs)

/-- Path lookup: the location a path string denotes for a process whose
working directory is `cwd`.  The final element need not exist. -/
def resolve (fs : FS) (cwd : Loc) (path : GoStr) : Option Loc :=
  if path = [] then none
  else if path.head? = some '/' then walk fs [] (Strings.splitSlash path)
  else walk fs cwd (Strings.splitSlash path)

end FS

/-! ## The process environment -/

/-- What the handlers take from the process environment: the working
directory, and which system calls the environment makes fail for a reason
that lies outside the file tree.  `statFault`, `openFault` and `createFault`
say for which path strings `os.Stat`, `os.Open` and `os.Create` return an
error whatever the tree holds: a path the kernel rejects (an element longer
than the file system allows, ENAMETOOLONG; a path longer than the kernel
allows; a NUL byte, EINVAL), a permission that is missing, a full or
read-only device.  `copyFault` says whether `io.Copy` of an upload fails,
and after how many bytes. -/
structure Env where
  cwd : Loc
  statFault : GoStr → Bool
  openFault : GoStr → Bool
  createFault : GoStr → Bool
  copyFault : Option Nat

/-! ## package os -/

namespace OS

/-- Go `os.Stat(path)`: `true` when `err == nil`. -/
def Stat (fs : FS) (env : Env) (path : GoStr) : Bool :=
  if env.statFault path then false
  else
    match fs.resolve env.cwd path with
    | some t => (fs.get t).isSome
    | none => false

/-- Go `os.Open(path)`: the node opened, `none` when `err != nil`.  Opening a
directory succeeds. -/
def Open (fs : FS) (env : Env) (path : GoStr) : Option Node :=
  if env.openFault path then none
  else (fs.resolve env.cwd path).bind fs.get

/-- Go `os.Create(path)`: creates or truncates a regular file; `none` when
`err != nil` (the environment refuses, a directory is in the way, or there
is no parent directory). -/
def Create (fs : FS) (env : Env) (path : GoStr) : Option (Loc × FS) :=
  if env.createFault path then none
  else
    match fs.resolve env.cwd path with
    | none => none
    | some t =>
      match fs.get t with
      | some Node.dir => none
      | some (Node.file _) => some (t, fs.set t (Node.file []))
      | none =>
        if t ≠ [] ∧ fs.get t.dropLast = some Node.dir then
          some (t, fs.set t (Node.file []))
        else none

end OS

/-! ## package net/http -/

/-- HTTP header map. -/
abbrev Header := List (String × List String)

namespace Header

/-- Go `Header.Set`. -/
def Set (h : Header) (k v : String) : Header :=
  (k, [v]) :: h.filter (fun e => e.1 ≠ k)

/-- Go `Header.Add`. -/
def Add : Header → String → String → Header
  | [], k, v => [(k, [v])]
  | (k', vs) :: rest, k, v =>
    if k' = k then (k', vs ++ [v]) :: rest else (k', vs) :: Add rest k v

end Header

/-- Outcome of `ParseMultipartForm(32 << 20)` followed by `FormFile("file")`
on a request body.  The argument is the memory the parser may use, not a
bound on the upload: a larger file part is parsed all the same.  The file
name is what `FileHeader.Filename` holds. -/
inductive Form where
  | parseError
  | missingFile
  | file (filename : GoStr) (content : Bytes)
  deriving DecidableEq, Repr

/-- The fields of `http.Request` the handlers read. -/
structure Request where
  Method : String
  URLPath : GoStr
  Host : GoStr
  Proto : String
  ProtoMajor : Int
  ProtoMinor : Int
  Header : Header
  MultipartForm : Form
  deriving DecidableEq, Repr

/-- Error of `http.ReadRequest`: `io.EOF`, or anything else. -/
inductive ReadErr where
  | eof
  | other
  deriving DecidableEq, Repr

/-- Result pair `(req, err)` of `http.ReadRequest`. -/
abbrev ReadResult := Option Request × Option ReadErr

/-- Body reader of a response. -/
inductive Body where
  | text (s : String)
  | data (b : Bytes)
  | unreadable
  deriving DecidableEq, Repr

/-- The fields of `http.Response` the handlers set. -/
structure Response where
  StatusCode : Nat
  Proto : String
  ProtoMajor : Int
  ProtoMinor : Int
  Header : Header
  Body : Body
  deriving DecidableEq, Repr

/-- Go `http.StatusText` on the codes used. -/
def StatusText (code : Nat) : String :=
  if code = 200 then "OK"
  else if code = 400 then "Bad Request"
  else if code = 404 then "Not Found"
  else if code = 409 then "Conflict"
  else if code = 500 then "Internal Server Error"
  else if code = 501 then "Not Implemented"
  else if code = 502 then "Bad Gateway"
  else ""

/-- Observable actions of a connection handler, in order. -/
inductive Event where
  | stat (path : GoStr)
  | fopen (path : GoStr)
  | create (path : GoStr)
  | copy (path : GoStr) (written : Bytes)
  | upstream (url : GoStr) (header : Header)
  | write (r : Response)
  deriving DecidableEq, Repr

/-- Responses written to the connection, in order. -/
def responses : List Event → List Response
  | [] => []
  | Event.write r :: rest => r :: responses rest
  | _ :: rest => responses rest

/-- Paths passed to `os.Open`, in order. -/
def opened : List Event → List GoStr
  | [] => []
  | Event.fopen p :: rest => p :: opened rest
  | _ :: rest => opened rest

/-- Status codes of the responses written, in order. -/
def statuses : List Event → List Nat
  | [] => []
  | Event.write r :: rest => r.StatusCode :: statuses rest
  | _ :: rest => statuses rest

/-- Result of running a handler: a nil dereference, or a normal return with
the file system and the actions performed. -/
inductive Outcome where
  | panicked
  | returned (fs : FS) (log : List Event)
  deriving DecidableEq, Repr

/-! ## cmd/http_server.go -/

namespace FileServer

open Strings Filepath

/-- The value `main` gives the global `savePath`: `./` without a second
argument, else the argument with a trailing slash ensured. -/
def mainSavePath (arg : Option GoStr) : GoStr :=
  match arg with
  | none => ['.', '/']
  | some a => if HasSuffixSlash a then a else a ++ ['/']

/-- Source `isValidExt`. -/
def isValidExt (filePath : GoStr) : Bool :=
  let e := Ext filePath
  if e = ".gif".toList ∨ e = ".jpg".toList ∨ e = ".jpeg".toList ∨
      e = ".txt".toList ∨ e = ".html".toList ∨ e = ".css".toList then true
  else false

/-- Source `getContentType`. -/
def getContentType (filePath : GoStr) : String :=
  let e := Ext filePath
  if e = ".html".toList then "text/html"
  else if e = ".gif".toList then "image/gif"
  else if e = ".txt".toList then "text/plain"
  else if e = ".jpeg".toList then "image/jpeg"
  else if e = ".jpg".toList then "image/jpeg"
  else if e = ".css".toList then "text/css"
  else "application/octet-stream"

/-- Source `handleResponse`: builds a text response echoing the protocol
version of `originalReq` and writes it.  `originalReq` is a pointer; reading
its fields when it is nil panics. -/
def handleResponse (fs : FS) (log : List Event) (body : String) (statusCode : Nat)
    (originalReq : Option Request) : Outcome :=
  match originalReq with
  | none => Outcome.panicked
  | some r =>
    Outcome.returned fs (log ++ [Event.write {
      StatusCode := statusCode
      Proto := r.Proto
      ProtoMajor := r.ProtoMajor
      ProtoMinor := r.ProtoMinor
      Header := Header.Set [] "Content-Type" "text/plain"
      Body := Body.text body }])

/-- Body reader over an opened node: a regular file yields its bytes, a
directory handle fails on `Read`. -/
def fileBody : Node → Body
  | Node.file d => Body.data d
  | Node.dir => Body.unreadable

/-- Source `handleGET`. -/
def handleGET (env : Env) (savePath : GoStr) (fs : FS) (request : Request) : Outcome :=
  let filePath := savePath ++ TrimPrefixSlash request.URLPath
  if !isValidExt filePath then
    handleResponse fs [] (StatusText 400 ++ "\n") 400 (some request)
  else
    match OS.Open fs env filePath with
    | none =>
      handleResponse fs [Event.fopen filePath] (StatusText 404 ++ "\n") 404 (some request)
    | some file =>
      Outcome.returned fs [Event.fopen filePath, Event.write {
        StatusCode := 200
        Proto := request.Proto
        ProtoMajor := request.ProtoMajor
        ProtoMinor := request.ProtoMinor
        Header := Header.Set [] "Content-Type" (getContentType filePath)
        Body := fileBody file }]

/-- Source `handlePOST`. -/
def handlePOST (env : Env) (savePath : GoStr) (fs : FS) (request : Request) : Outcome :=
  match request.MultipartForm with
  | Form.parseError =>
    handleResponse fs [] (StatusText 400 ++ "\n") 400 (some request)
  | Form.missingFile =>
    handleResponse fs [] (StatusText 400 ++ "\n") 400 (some request)
  | Form.file filename content =>
    let filePath := Join savePath filename
    if !isValidExt filePath then
      handleResponse fs [] (StatusText 400 ++ "\n") 400 (some request)
    else if OS.Stat fs env filePath then
      handleResponse fs [Event.stat filePath] (StatusText 409 ++ "\n") 409 (some request)
    else
      match OS.Create fs env filePath with
      | none =>
        handleResponse fs [Event.stat filePath, Event.create filePath]
          (StatusText 500 ++ "\n") 500 (some request)
      | some (outFile, fs1) =>
        match env.copyFault with
        | some k =>
          handleResponse (fs1.set outFile (Node.file (content.take k)))
            [Event.stat filePath, Event.create filePath, Event.copy filePath (content.take k)]
            (StatusText 500 ++ "\n") 500 (some request)
        | none =>
          Outcome.returned (fs1.set outFile (Node.file content))
            [Event.stat filePath, Event.create filePath, Event.copy filePath content,
             Event.write {
              StatusCode := 200
              Proto := request.Proto
              ProtoMajor := request.ProtoMajor
              ProtoMinor := request.ProtoMinor
              Header := Header.Set [] "Content-Type" "text/plain"
              Body := Body.text "File uploaded successfully\n" }]

/-- Source `clientHandler`, on the result of `http.ReadRequest`.  The error
branch is taken for an error other than `io.EOF`; otherwise `req.Method` is
read, which panics when `req` is nil. -/
def clientHandler (env : Env) (savePath : GoStr) (fs : FS) (rr : ReadResult) : Outcome :=
  let req := rr.1
  let err := rr.2
  if err ≠ none ∧ err ≠ some ReadErr.eof then
    handleResponse fs [] (StatusText 400 ++ "\n") 400 req
  else
    match req with
    | none => Outcome.panicked
    | some r =>
      if r.Method = "GET" then handleGET env savePath fs r
      else if r.Method = "POST" then handlePOST env savePath fs r
      else handleResponse fs [] (StatusText 501 ++ "\n") 501 req

end FileServer

/-! ## cmd/proxy/proxy.go -/

namespace Proxy

/-- The network as the proxy sees it: whether `http.NewRequest` accepts a
URL, and what `client.Do` returns for a request (`none` when it fails). -/
structure Net where
  newRequest : GoStr → Bool
  roundTrip : GoStr → Header → Option Response

/-- Result of running the proxy handler: a nil dereference, or a normal
return with the actions performed. -/
inductive Outcome where
  | panicked
  | returned (log : List Event)
  deriving DecidableEq, Repr

/-- Source `handleResponse` of the proxy. -/
def handleResponse (log : List Event) (body : String) (statusCode : Nat)
    (originalReq : Option Request) : Outcome :=
  match originalReq with
  | none => Outcome.panicked
  | some r =>
    Outcome.returned (log ++ [Event.write {
      StatusCode := statusCode
      Proto := r.Proto
      ProtoMajor := r.ProtoMajor
      ProtoMinor := r.ProtoMinor
      Header := Header.Set [] "Content-Type" "text/plain"
      Body := Body.text body }])

/-- Header copy loop of `proxyRequest`: every value of every header is added
to the new request. -/
def copyHeader (src : Header) : Header :=
  src.foldl (fun acc kv => kv.2.foldl (fun a v => Header.Add a kv.1 v) acc) []

/-- The URL `proxyRequest` builds: `fmt.Sprintf("http://%s%s", Host, URL.Path)`. -/
def upstreamURL (request : Request) : GoStr :=
  "http://".toList ++ request.Host ++ request.URLPath

/-- Source `proxyRequest`: the upstream response or `none` for an error,
with the upstream requests issued. -/
def proxyRequest (net : Net) (request : Request) : Option Response × List Event :=
  let url := upstreamURL request
  if !net.newRequest url then (none, [])
  else
    let hdr := copyHeader request.Header
    (net.roundTrip url hdr, [Event.upstream url hdr])

/-- Source `handleClient`, on the result of `http.ReadRequest`: any error is
logged and the handler returns. -/
def handleClient (net : Net) (rr : ReadResult) : Outcome :=
  let req := rr.1
  let err := rr.2
  if err ≠ none then Outcome.returned []
  else
    match req with
    | none => Outcome.panicked
    | some r =>
      if r.Method ≠ "GET" then
        handleResponse [] (StatusText 501 ++ "\n") 501 req
      else
        match proxyRequest net r with
        | (none, evs) => handleResponse evs (StatusText 502 ++ "\n") 502 req
        | (some resp, evs) => Outcome.returned (evs ++ [Event.write resp])

end Proxy

/-- Status codes a run answered with; `none` for a panic. -/
def Outcome.answers : Outcome → Option (List Nat)
  | Outcome.panicked => none
  | Outcome.returned _ log => some (statuses log)

/-- Status codes a proxy run answered with; `none` for a panic. -/
def Proxy.Outcome.answers : Proxy.Outcome → Option (List Nat)
  | Proxy.Outcome.panicked => none
  | Proxy.Outcome.returned log => some (statuses log)

/-! ## Concrete inputs -/

namespace Demo
open FileServer
/-- Process environment of the examples: working directory `/srv`, no system
call fails for a reason outside the file tree. -/
def env : Env :=
  { cwd := ["srv".toList], statFault := fun _ => false, openFault := fun _ => false,
    createFault := fun _ => false, copyFault := none }

/-- Path strings a Linux kernel rejects whatever the tree holds: one with a
NUL byte, or with an element of more than 255 bytes (ASCII names here). -/
def kernelRejects (path : GoStr) : Bool :=
  path.contains (Char.ofNat 0) || (Strings.splitSlash path).any (fun e => 255 < e.length)

/-- Process environment in which every system call fails on the paths the
kernel rejects. -/
def strict : Env :=
  { cwd := ["srv".toList], statFault := kernelRejects, openFault := kernelRejects,
    createFault := kernelRejects, copyFault := none }

/-- A file name of 304 bytes with an allow-listed extension. -/
def longName : GoStr := List.replicate 300 'a' ++ ".txt".toList

/-- A file name with a NUL byte and an allow-listed extension. -/
def nulName : GoStr := ['a', Char.ofNat 0, '.', 't', 'x', 't']

/-- Request uploading `content` under a file name given byte by byte. -/
def uploadAs (name : GoStr) (content : Bytes) : Request :=
  { Method := "POST", URLPath := "/".toList, Host := "localhost".toList,
    Proto := "HTTP/1.1", ProtoMajor := 1, ProtoMinor := 1,
    Header := [("Accept", ["*/*"])], MultipartForm := Form.file name content }

/-- File system of the examples: `/srv/data` is the storage directory,
`/srv/secret.txt` lies next to it, `/srv/data/d.txt` is a directory. -/
def fs0 : FS :=
  [([], Node.dir), (["srv".toList], Node.dir), (["srv".toList, "data".toList], Node.dir),
   (["srv".toList, "secret.txt".toList], Node.file [115, 51]),
   (["srv".toList, "data".toList, "old.txt".toList], Node.file [111]),
   (["srv".toList, "data".toList, "d.txt".toList], Node.dir),
   (["srv".toList, "site.html".toList], Node.dir)]

/-- A parsed HTTP/1.1 request. -/
def request (method : String) (path : String) (form : Form) : Request :=
  { Method := method, URLPath := path.toList, Host := "localhost".toList,
    Proto := "HTTP/1.1", ProtoMajor := 1, ProtoMinor := 1,
    Header := [("Accept", ["*/*"])], MultipartForm := form }

/-- Request `POST /` uploading `content` under `name` in the field `file`. -/
def upload (name : String) (content : Bytes) : Request :=
  request "POST" "/" (Form.file name.toList content)

/-- Request `GET path`. -/
def fetch (path : String) : Request :=
  request "GET" path Form.missingFile

/-- File system of the repository's tests: the working directory `/srv`
holding `test.txt` and `existing.txt`. -/
def testFS : FS :=
  [([], Node.dir), (["srv".toList], Node.dir),
   (["srv".toList, "test.txt".toList], Node.file [72, 101, 108, 108, 111]),
   (["srv".toList, "existing.txt".toList], Node.file [69, 120])]

/-- A network on which every host answers 200 with a fixed body. -/
def reachable : Proxy.Net :=
  { newRequest := fun _ => true,
    roundTrip := fun _ _ => some {
      StatusCode := 200, Proto := "HTTP/1.1", ProtoMajor := 1, ProtoMinor := 1,
      Header := [("Server", ["gws"])], Body := Body.data [60, 62] } }

/-- A network on which every URL is well formed and no host answers. -/
def unreachable : Proxy.Net :=
  { newRequest := fun _ => true, roundTrip := fun _ _ => none }

end Demo

/-! ## Lemmas: strings and paths -/

namespace Strings

theorem splitSlash_ne_nil (s : GoStr) : splitSlash s ≠ [] := by
  cases s with
  | nil => simp [splitSlash]
  | cons c cs =>
    unfold splitSlash
    split
    · simp
    · split <;> simp

theorem splitSlash_append_slash (a b : GoStr) :
    splitSlash (a ++ '/' :: b) = splitSlash a ++ splitSlash b := by
  induction a with
  | nil => simp [splitSlash]
  | cons c cs ih =>
    by_cases hc : c = '/'
    · simp [splitSlash, hc, ih]
    · simp only [List.cons_append, splitSlash, hc, if_false, List.append_eq]
      cases h : splitSlash cs with
      | nil => exact absurd h (splitSlash_ne_nil cs)
      | cons x xs => rw [ih, h]; simp

theorem splitSlash_of_no_slash (n : GoStr) (h : '/' ∉ n) : splitSlash n = [n] := by
  induction n with
  | nil => simp [splitSlash]
  | cons c cs ih =>
    have hc : c ≠ '/' := fun e => h (by simp [e])
    have hcs : '/' ∉ cs := fun e => h (List.mem_cons_of_mem _ e)
    simp [splitSlash, hc, ih hcs]

theorem no_slash_of_mem_splitSlash (s c : GoStr) (h : c ∈ splitSlash s) : '/' ∉ c := by
  induction s generalizing c with
  | nil =>
    simp [splitSlash] at h
    simp [h]
  | cons x xs ih =>
    by_cases hx : x = '/'
    · simp only [splitSlash, hx, if_true, List.mem_cons] at h
      rcases h with h | h
      · simp [h]
      · exact ih c h
    · simp only [splitSlash, hx, if_false] at h
      cases hs : splitSlash xs with
      | nil => exact absurd hs (splitSlash_ne_nil xs)
      | cons y ys =>
        rw [hs] at h
        simp only [List.mem_cons] at h
        rcases h with h | h
        · have hy : '/' ∉ y := ih y (by simp [hs])
          subst h
          intro hm
          simp only [List.mem_cons] at hm
          rcases hm with hm | hm
          · exact hx hm.symm
          · exact hy hm
        · exact ih c (by simp [hs, h])

theorem joinSlash_append_singleton (ys : List GoStr) (n : GoStr) (h : ys ≠ []) :
    joinSlash (ys ++ [n]) = joinSlash ys ++ '/' :: n := by
  induction ys with
  | nil => exact absurd rfl h
  | cons y ys ih =>
    cases ys with
    | nil => simp [joinSlash]
    | cons z zs =>
      have := ih (by simp)
      simp only [List.cons_append, joinSlash] at this ⊢
      simp [this]

theorem splitSlash_joinSlash (elems : List GoStr) (hne : elems ≠ [])
    (h : ∀ c ∈ elems, '/' ∉ c) : splitSlash (joinSlash elems) = elems := by
  induction elems with
  | nil => exact absurd rfl hne
  | cons y ys ih =>
    cases ys with
    | nil =>
      simp only [joinSlash]
      exact splitSlash_of_no_slash y (h y (by simp))
    | cons z zs =>
      simp only [joinSlash] at ih ⊢
      rw [splitSlash_append_slash, splitSlash_of_no_slash y (h y (by simp))]
      rw [ih (by simp) (fun c hc => h c (List.mem_cons_of_mem _ hc))]
      simp

theorem head_joinSlash (e : GoStr) (es : List GoStr) (he : e ≠ []) :
    (joinSlash (e :: es)).head? = e.head? := by
  cases e with
  | nil => exact absurd rfl he
  | cons c cs => cases es <;> simp [joinSlash]

end Strings

namespace Filepath

open Strings

theorem extRev_append (x y acc : List Char) (hy : y = [] ∨ y.head? = some '/') :
    extRev (x ++ y) acc = extRev x acc := by
  induction x generalizing acc with
  | nil =>
    rcases hy with hy | hy
    · simp [hy]
    · cases y with
      | nil => simp at hy
      | cons c cs =>
        simp only [List.head?_cons, Option.some.injEq] at hy
        simp [extRev, hy]
  | cons c cs ih =>
    simp only [List.cons_append, extRev]
    split
    · rfl
    · split
      · rfl
      · exact ih _

/-- The extension only depends on what follows the last separator. -/
theorem Ext_append (a b : GoStr) (ha : a = [] ∨ a.getLast? = some '/') :
    Ext (a ++ b) = Ext b := by
  unfold Ext
  rw [List.reverse_append]
  apply extRev_append
  rcases ha with ha | ha
  · left; simp [ha]
  · right
    rw [List.head?_reverse]
    exact ha

end Filepath

namespace Filepath

open Strings

theorem stackOK_nil (rooted : Bool) : StackOK rooted [] := by
  simp [StackOK]

theorem cleanStep_plain (rooted : Bool) (st : List GoStr) (n : GoStr) (h : plainName n) :
    cleanStep rooted st n = n :: st := by
  obtain ⟨h1, h2, h3, _⟩ := h
  simp [cleanStep, h1, h2, h3]

theorem dotdot_no_slash : '/' ∉ dotdot := by decide

theorem cleanStep_ok (rooted : Bool) (st : List GoStr) (c : GoStr)
    (hok : StackOK rooted st) (hc : '/' ∉ c) : StackOK rooted (cleanStep rooted st c) := by
  unfold cleanStep
  by_cases h1 : c = [] ∨ c = ['.']
  · simp only [h1, if_true]
    exact hok
  · simp only [h1, if_false]
    have h1a : c ≠ [] := fun e => h1 (Or.inl e)
    have h1b : c ≠ ['.'] := fun e => h1 (Or.inr e)
    by_cases h2 : c = dotdot
    · simp only [h2, if_true]
      cases st with
      | nil =>
        cases rooted
        · simp [StackOK, dotdot]
        · simp [StackOK]
      | cons top rest =>
        have hrest : StackOK rooted rest :=
          ⟨fun x hx => hok.1 x (List.mem_cons_of_mem _ hx),
           fun hr x hx => hok.2 hr x (List.mem_cons_of_mem _ hx)⟩
        by_cases h3 : top = dotdot
        · cases rooted
          · simp only [h3, ne_eq, not_true_eq_false, if_false, Bool.false_eq_true]
            refine ⟨?_, by simp⟩
            intro x hx
            simp only [List.mem_cons] at hx
            rcases hx with hx | hx | hx
            · subst hx; exact ⟨by decide, by decide, by decide⟩
            · subst hx; exact ⟨by decide, by decide, by decide⟩
            · exact hrest.1 x hx
          · simp only [h3, ne_eq, not_true_eq_false, if_false, if_true]
            rw [← h3]
            exact hok
        · simp only [ne_eq, h3, not_false_eq_true, if_true]
          exact hrest
    · simp only [h2, if_false]
      refine ⟨?_, ?_⟩
      · intro x hx
        simp only [List.mem_cons] at hx
        rcases hx with hx | hx
        · subst hx; exact ⟨h1a, h1b, hc⟩
        · exact hok.1 x hx
      · intro hr x hx
        simp only [List.mem_cons] at hx
        rcases hx with hx | hx
        · subst hx; exact h2
        · exact hok.2 hr x hx

end Filepath

namespace FS

open Strings Filepath

theorem walk_append (fs : FS) (cur : Loc) (xs ys : List GoStr) :
    walk fs cur (xs ++ ys) = (walk fs cur xs).bind (fun m => walk fs m ys) := by
  induction xs generalizing cur with
  | nil => simp [walk]
  | cons x xs ih =>
    simp only [List.cons_append, walk]
    cases step fs cur x with
    | none => simp
    | some nxt => simp [ih]

theorem step_dir (fs : FS) (cur nxt : Loc) (c : GoStr) (h : step fs cur c = some nxt) :
    fs.get cur = some Node.dir := by
  unfold step at h
  split at h
  · assumption
  · simp at h

theorem step_of_dir (fs : FS) (cur : Loc) (c : GoStr) (h : fs.get cur = some Node.dir) :
    step fs cur c =
      if c = [] ∨ c = ['.'] then some cur
      else if c = dotdot then some cur.dropLast
      else some (cur ++ [c]) := by
  simp [step, h]

theorem step_name (fs : FS) (cur : Loc) (c : GoStr) (h : fs.get cur = some Node.dir)
    (h1 : c ≠ []) (h2 : c ≠ ['.']) (h3 : c ≠ dotdot) : step fs cur c = some (cur ++ [c]) := by
  simp [step_of_dir fs cur c h, h1, h2, h3]

theorem step_empty (fs : FS) (cur : Loc) (h : fs.get cur = some Node.dir) :
    step fs cur [] = some cur := by
  simp [step_of_dir fs cur [] h]

theorem walk_singleton (fs : FS) (cur : Loc) (c : GoStr) : walk fs cur [c] = step fs cur c := by
  simp only [walk]
  cases step fs cur c <;> simp

/-- One step of `Clean` keeps the location its output denotes in line with
the location the input denotes. -/
theorem cleanStep_walk (fs : FS) (rooted : Bool) (start cur nxt : Loc) (st : List GoStr)
    (c : GoStr) (hok : StackOK rooted st) (hroot : rooted = true → start = [])
    (hw : walk fs start st.reverse = some cur) (hs : step fs cur c = some nxt) :
    walk fs start (cleanStep rooted st c).reverse = some nxt := by
  have hd := step_dir fs cur nxt c hs
  rw [step_of_dir fs cur c hd] at hs
  unfold cleanStep
  by_cases h1 : c = [] ∨ c = ['.']
  · simp only [h1, if_true, Option.some.injEq] at hs ⊢
    rw [← hs]; exact hw
  · simp only [h1, if_false] at hs ⊢
    by_cases h2 : c = dotdot
    · simp only [h2, if_true, Option.some.injEq] at hs ⊢
      cases st with
      | nil =>
        simp only [List.reverse_nil, walk, Option.some.injEq] at hw
        subst hw
        cases rooted
        · simp only [Bool.false_eq_true, if_false, List.reverse_cons, List.reverse_nil,
            List.nil_append, walk_singleton]
          rw [step_of_dir fs start dotdot hd, ← hs]
          simp [dotdot]
        · simp only [if_true, List.reverse_nil, walk]
          rw [← hs, hroot rfl]
          rfl
      | cons top rest =>
        by_cases h3 : top = dotdot
        · cases rooted
          · subst h3
            simp only [ne_eq, not_true_eq_false, if_false, Bool.false_eq_true]
            rw [List.reverse_cons, walk_append, hw]
            simp only [Option.some_bind, walk_singleton]
            rw [step_of_dir fs cur dotdot hd, ← hs]
            simp [dotdot]
          · exact absurd h3 (hok.2 rfl top (by simp))
        · simp only [ne_eq, h3, not_false_eq_true, if_true]
          rw [List.reverse_cons, walk_append] at hw
          cases hm : walk fs start rest.reverse with
          | none => simp [hm] at hw
          | some m =>
            simp only [hm, Option.some_bind, walk_singleton] at hw
            have hmd := step_dir fs m cur top hw
            have htop := hok.1 top (by simp)
            rw [step_name fs m top hmd htop.1 htop.2.1 h3] at hw
            simp only [Option.some.injEq] at hw
            rw [← hs, ← hw]
            simp
    · simp only [h2, if_false] at hs ⊢
      rw [List.reverse_cons, walk_append, hw]
      simp only [Option.some_bind, walk_singleton]
      rw [step_of_dir fs cur c hd]
      simp [h1, h2, hs]

/-- The element stack `Clean` builds denotes the location the input elements
denote, whenever the input can be walked. -/
theorem foldl_cleanStep_walk (fs : FS) (rooted : Bool) (start : Loc)
    (hroot : rooted = true → start = []) (comps : List GoStr) :
    ∀ (st : List GoStr) (cur d : Loc), StackOK rooted st → (∀ c ∈ comps, '/' ∉ c) →
      walk fs start st.reverse = some cur → walk fs cur comps = some d →
      walk fs start (comps.foldl (cleanStep rooted) st).reverse = some d ∧
        StackOK rooted (comps.foldl (cleanStep rooted) st) := by
  induction comps with
  | nil =>
    intro st cur d hok _ hw hd
    simp only [walk, Option.some.injEq] at hd
    subst hd
    exact ⟨hw, hok⟩
  | cons c cs ih =>
    intro st cur d hok hsl hw hd
    simp only [walk] at hd
    cases hs : step fs cur c with
    | none => simp [hs] at hd
    | some nxt =>
      simp only [hs, Option.some_bind] at hd
      simp only [List.foldl_cons]
      exact ih (cleanStep rooted st c) nxt d
        (cleanStep_ok rooted st c hok (hsl c (by simp)))
        (fun x hx => hsl x (List.mem_cons_of_mem _ hx))
        (cleanStep_walk fs rooted start cur nxt st c hok hroot hw hs) hd

/-- Extending the file system at locations that were free does not change
the lookups that succeeded. -/
theorem walk_mono (fs fs1 : FS) (hext : ∀ p, fs.get p = some Node.dir → fs1.get p = some Node.dir)
    (comps : List GoStr) : ∀ (cur d : Loc), walk fs cur comps = some d →
      walk fs1 cur comps = some d := by
  induction comps with
  | nil => intro cur d h; simpa [walk] using h
  | cons c cs ih =>
    intro cur d h
    simp only [walk] at h ⊢
    cases hs : step fs cur c with
    | none => simp [hs] at h
    | some nxt =>
      have hd := step_dir fs cur nxt c hs
      have hs1 : step fs1 cur c = some nxt := by
        rw [step_of_dir fs1 cur c (hext cur hd), ← hs, step_of_dir fs cur c hd]
      simp only [hs, Option.some_bind] at h
      simp only [hs1, Option.some_bind]
      exact ih nxt d h

/-- What the output of `Clean` denotes, from its element list. -/
theorem resolve_render (fs : FS) (cwd : Loc) (rooted : Bool) (elems : List GoStr)
    (hne : elems ≠ []) (hok : ∀ x ∈ elems, x ≠ [] ∧ '/' ∉ x)
    (hrootdir : rooted = true → fs.get [] = some Node.dir) :
    resolve fs cwd (render rooted elems) = walk fs (if rooted then [] else cwd) elems := by
  cases elems with
  | nil => exact absurd rfl hne
  | cons e es =>
    have he := hok e (by simp)
    have hsplit := splitSlash_joinSlash (e :: es) (by simp) (fun c hc => (hok c hc).2)
    cases rooted
    · have hj : joinSlash (e :: es) ≠ [] := by
        intro h0
        have := head_joinSlash e es he.1
        rw [h0] at this
        cases e with
        | nil => exact he.1 rfl
        | cons c cs => simp at this
      have hh : (joinSlash (e :: es)).head? ≠ some '/' := by
        rw [head_joinSlash e es he.1]
        cases e with
        | nil => exact absurd rfl he.1
        | cons c cs =>
          simp only [List.head?_cons, ne_eq, Option.some.injEq]
          intro hc
          exact he.2 (by simp [hc])
      simp only [render, Bool.false_eq_true, if_false, List.nil_append, hj, resolve, hh, hsplit]
    · have hr := hrootdir rfl
      simp only [render, if_true, List.singleton_append, resolve]
      simp only [List.cons_ne_nil, if_false, List.head?_cons, if_true]
      have : splitSlash ('/' :: joinSlash (e :: es)) = [] :: (e :: es) := by
        simp [splitSlash, hsplit]
      rw [this]
      simp only [walk]
      rw [step_empty fs [] hr]
      simp [walk]

end FS

namespace Filepath

open Strings

theorem foldl_cleanStep_snoc (rooted : Bool) (xs : List GoStr) (n : GoStr) (hn : plainName n) :
    ((xs ++ [n]).foldl (cleanStep rooted) []).reverse =
      (xs.foldl (cleanStep rooted) []).reverse ++ [n] := by
  rw [List.foldl_append]
  simp [cleanStep_plain rooted _ n hn]

theorem render_snoc (rooted : Bool) (ys : List GoStr) (n : GoStr) (hn : n ≠ []) :
    ∃ pre, render rooted (ys ++ [n]) = pre ++ n ∧ (pre = [] ∨ pre.getLast? = some '/') := by
  by_cases hys : ys = []
  · subst hys
    cases rooted
    · exact ⟨[], by simp [render, joinSlash, hn], Or.inl rfl⟩
    · exact ⟨['/'], by simp [render, joinSlash], Or.inr rfl⟩
  · refine ⟨(if rooted then ['/'] else []) ++ joinSlash ys ++ ['/'], ?_, Or.inr (by simp)⟩
    simp only [render, joinSlash_append_singleton ys n hys]
    cases rooted <;> simp

/-- Joining a directory path and an ordinary file name yields a path whose
final element is that name. -/
theorem Join_shape (a n : GoStr) (ha : a ≠ []) (hn : plainName n) :
    ∃ pre, Join a n = pre ++ n ∧ (pre = [] ∨ pre.getLast? = some '/') := by
  have hp : a ++ '/' :: n ≠ [] := by simp
  simp only [Join, ne_eq, ha, not_false_eq_true, if_true, Clean, hp, if_false]
  rw [splitSlash_append_slash, splitSlash_of_no_slash n hn.2.2.2, foldl_cleanStep_snoc _ _ n hn]
  exact render_snoc _ _ n hn.1

theorem Ext_Join (a n : GoStr) (ha : a ≠ []) (hn : plainName n) : Ext (Join a n) = Ext n := by
  obtain ⟨pre, h, hpre⟩ := Join_shape a n ha hn
  rw [h, Ext_append pre n hpre]

end Filepath

namespace FS

open Strings Filepath

/-- Start of a lookup: the root for a rooted path, else the working
directory. -/
theorem resolve_eq_walk (fs : FS) (cwd : Loc) (p : GoStr) (hp : p ≠ []) :
    resolve fs cwd p =
      walk fs (if p.head? = some '/' then [] else cwd) (splitSlash p) := by
  unfold resolve
  simp only [hp, if_false]
  split <;> rfl

theorem head_append_of_ne_nil (a b : GoStr) (ha : a ≠ []) : (a ++ b).head? = a.head? := by
  cases a with
  | nil => exact absurd rfl ha
  | cons c cs => simp

/-- Walking a directory path that ends in a slash ends where walking it
without the final slash ends. -/
theorem walk_dirpath (fs : FS) (cwd : Loc) (s : GoStr) (root : Loc)
    (hres : resolve fs cwd (s ++ ['/']) = some root) :
    walk fs (if (s ++ ['/']).head? = some '/' then [] else cwd) (splitSlash s) = some root := by
  rw [resolve_eq_walk fs cwd _ (by simp)] at hres
  have e : splitSlash (s ++ ['/']) = splitSlash s ++ [[]] := by
    rw [splitSlash_append_slash]; rfl
  rw [e, walk_append] at hres
  cases hm : walk fs (if (s ++ ['/']).head? = some '/' then [] else cwd) (splitSlash s) with
  | none => rw [hm] at hres; simp at hres
  | some m =>
    rw [hm] at hres
    simp only [Option.some_bind, walk_singleton] at hres
    have hd := step_dir fs m root [] hres
    rw [step_empty fs m hd] at hres
    exact hres

/-- A path ending in a slash only denotes directories. -/
theorem dir_of_resolve_dirpath (fs : FS) (cwd : Loc) (s : GoStr) (root : Loc)
    (hres : resolve fs cwd (s ++ ['/']) = some root) : fs.get root = some Node.dir := by
  rw [resolve_eq_walk fs cwd _ (by simp)] at hres
  have e : splitSlash (s ++ ['/']) = splitSlash s ++ [[]] := by
    rw [splitSlash_append_slash]; rfl
  rw [e, walk_append] at hres
  cases hm : walk fs (if (s ++ ['/']).head? = some '/' then [] else cwd) (splitSlash s) with
  | none => rw [hm] at hres; simp at hres
  | some m =>
    rw [hm] at hres
    simp only [Option.some_bind, walk_singleton] at hres
    have hd := step_dir fs m root [] hres
    rw [step_empty fs m hd] at hres
    simp only [Option.some.injEq] at hres
    rw [← hres]; exact hd

/-- The path `handleGET` builds: directory path followed by a file name. -/
theorem resolve_concat (fs : FS) (cwd : Loc) (s n : GoStr) (root : Loc)
    (hres : resolve fs cwd (s ++ ['/']) = some root) (hdir : fs.get root = some Node.dir)
    (hn : plainName n) : resolve fs cwd ((s ++ ['/']) ++ n) = some (root ++ [n]) := by
  have hw := walk_dirpath fs cwd s root hres
  rw [resolve_eq_walk fs cwd _ (by simp), head_append_of_ne_nil _ n (by simp)]
  have e : splitSlash ((s ++ ['/']) ++ n) = splitSlash s ++ [n] := by
    rw [List.append_assoc, List.singleton_append, splitSlash_append_slash,
      splitSlash_of_no_slash n hn.2.2.2]
  rw [e, walk_append, hw]
  simp only [Option.some_bind, walk_singleton]
  exact step_name fs root n hdir hn.1 hn.2.1 hn.2.2.1

/-- The path `handlePOST` builds denotes the same location. -/
theorem resolve_Join (fs : FS) (cwd : Loc) (s n : GoStr) (root : Loc)
    (hres : resolve fs cwd (s ++ ['/']) = some root) (hdir : fs.get root = some Node.dir)
    (hn : plainName n) : resolve fs cwd (Join (s ++ ['/']) n) = some (root ++ [n]) := by
  have hw := walk_dirpath fs cwd s root hres
  have ha : s ++ ['/'] ≠ [] := by simp
  have hp : (s ++ ['/']) ++ '/' :: n ≠ [] := by simp
  have hhead : ((s ++ ['/']) ++ '/' :: n).head? = (s ++ ['/']).head? :=
    head_append_of_ne_nil _ _ ha
  have hsplit : splitSlash ((s ++ ['/']) ++ '/' :: n) = (splitSlash s ++ [[]]) ++ [n] := by
    rw [splitSlash_append_slash, splitSlash_append_slash, splitSlash_of_no_slash n hn.2.2.2]
    rfl
  -- the input path can be walked, to `root ++ [n]`
  have hwalk : walk fs (if (s ++ ['/']).head? = some '/' then [] else cwd)
      ((splitSlash s ++ [[]]) ++ [n]) = some (root ++ [n]) := by
    rw [walk_append, walk_append, hw]
    simp only [Option.some_bind, walk_singleton]
    rw [step_empty fs root hdir]
    simp only [Option.some_bind]
    exact step_name fs root n hdir hn.1 hn.2.1 hn.2.2.1
  simp only [Join, ne_eq, ha, not_false_eq_true, if_true, Clean, hp, if_false, hhead]
  generalize hr : decide ((s ++ ['/']).head? = some '/') = rooted
  have hstart : (if (s ++ ['/']).head? = some '/' then ([] : Loc) else cwd) =
      (if rooted then [] else cwd) := by
    subst hr
    by_cases h : (s ++ ['/']).head? = some '/' <;> simp [h]
  rw [hstart] at hwalk
  have hroot : rooted = true → (if rooted then ([] : Loc) else cwd) = [] := by
    intro h; simp [h]
  have hslash : ∀ c ∈ (splitSlash s ++ [[]]) ++ [n], '/' ∉ c := by
    intro c hc
    rw [← hsplit] at hc
    exact no_slash_of_mem_splitSlash _ c hc
  obtain ⟨hcw, hok⟩ := foldl_cleanStep_walk fs rooted _ hroot ((splitSlash s ++ [[]]) ++ [n])
    [] _ _ (stackOK_nil rooted) hslash (by simp [walk]) hwalk
  rw [hsplit]
  have hrootdir : rooted = true → fs.get [] = some Node.dir := by
    intro h
    subst hr
    have hh : (s ++ ['/']).head? = some '/' := by simpa using h
    have hsp : ∃ rest, (splitSlash s ++ [[]]) ++ [n] = [] :: rest := by
      rw [← hsplit]
      cases hs : s ++ ['/'] with
      | nil => exact absurd hs ha
      | cons c cs =>
        rw [hs] at hh
        simp only [List.head?_cons, Option.some.injEq] at hh
        subst hh
        exact ⟨splitSlash (cs ++ '/' :: n), by simp [splitSlash]⟩
    obtain ⟨rest, hrest⟩ := hsp
    rw [hrest] at hwalk
    simp only [h, if_true, walk] at hwalk
    cases hs : step fs [] [] with
    | none => simp [hs] at hwalk
    | some x => exact step_dir fs [] x [] hs
  have hne : (((splitSlash s ++ [[]]) ++ [n]).foldl (cleanStep rooted) []).reverse ≠ [] := by
    rw [foldl_cleanStep_snoc rooted _ n hn]
    simp
  rw [resolve_render fs cwd rooted _ hne
    (fun x hx => by
      have := hok.1 x (by simpa using hx)
      exact ⟨this.1, this.2.2⟩) hrootdir]
  exact hcw

end FS

/-! ## Lemmas: the handlers -/

namespace FileServer

open Strings Filepath FS

theorem mainSavePath_shape (arg : Option GoStr) : ∃ s, mainSavePath arg = s ++ ['/'] := by
  cases arg with
  | none => exact ⟨['.'], rfl⟩
  | some a =>
    by_cases h : HasSuffixSlash a = true
    · refine ⟨a.dropLast, ?_⟩
      simp only [mainSavePath, h, if_true]
      simp only [HasSuffixSlash, decide_eq_true_eq] at h
      have hne : a ≠ [] := by
        intro e; simp [e] at h
      rw [List.getLast?_eq_getLast a hne] at h
      simp only [Option.some.injEq] at h
      rw [← h]
      exact (List.dropLast_append_getLast hne).symm
    · exact ⟨a, by simp [mainSavePath, h]⟩

theorem isValidExt_of_Ext_eq (p q : GoStr) (h : Ext p = Ext q) : isValidExt p = isValidExt q := by
  simp [isValidExt, h]

theorem getContentType_of_Ext_eq (p q : GoStr) (h : Ext p = Ext q) :
    getContentType p = getContentType q := by
  simp [getContentType, h]

/-- A slash-free name with an allow-listed extension is an ordinary file
name. -/
theorem plainName_of_isValidExt (n : GoStr) (hs : '/' ∉ n) (h : isValidExt n = true) :
    plainName n := by
  refine ⟨?_, ?_, ?_, hs⟩
  · intro e; subst e; revert h; decide
  · intro e; subst e; revert h; decide
  · intro e; subst e; revert h; decide

theorem get_set_self (fs : FS) (p : Loc) (n : Node) : (fs.set p n).get p = some n := by
  simp [FS.set, FS.get]

theorem get_set_other (fs : FS) (p q : Loc) (n : Node) (h : p ≠ q) :
    (fs.set p n).get q = fs.get q := by
  simp [FS.set, FS.get, h]

end FileServer

namespace FileServer

open Strings Filepath FS

theorem resolve_mono (fs fs1 : FS)
    (hext : ∀ p, fs.get p = some Node.dir → fs1.get p = some Node.dir)
    (cwd : Loc) (p : GoStr) (d : Loc) (h : fs.resolve cwd p = some d) :
    fs1.resolve cwd p = some d := by
  unfold FS.resolve at h ⊢
  split
  · rename_i hp; simp [hp] at h
  · rename_i hp
    simp only [hp, if_false] at h
    split
    · rename_i hh
      simp only [hh, if_true] at h
      exact walk_mono fs fs1 hext _ _ _ h
    · rename_i hh
      simp only [hh, if_false] at h
      exact walk_mono fs fs1 hext _ _ _ h

/-- The file system after a completed upload to the free location `t`. -/
theorem stored_dirs (fs : FS) (t : Loc) (c : Bytes) (hnew : fs.get t = none) :
    ∀ p, fs.get p = some Node.dir →
      ((fs.set t (Node.file [])).set t (Node.file c)).get p = some Node.dir := by
  intro p hp
  have hne : t ≠ p := by
    intro e; subst e; rw [hnew] at hp; simp at hp
  rw [get_set_other _ _ _ _ hne, get_set_other _ _ _ _ hne]
  exact hp

/-- A POST of a new, allow-listed, ordinary file name into an existing
storage directory stores the content and answers 200. -/
theorem handlePOST_new (env : Env) (s : GoStr) (fs : FS) (root : Loc) (name : GoStr)
    (content : Bytes) (post : Request)
    (hroot : fs.resolve env.cwd (s ++ ['/']) = some root)
    (hdir : fs.get root = some Node.dir)
    (hcr : env.createFault (Join (s ++ ['/']) name) = false)
    (hio : env.copyFault = none)
    (hn : plainName name) (hext : isValidExt name = true)
    (hnew : fs.get (root ++ [name]) = none)
    (hform : post.MultipartForm = Form.file name content) :
    handlePOST env (s ++ ['/']) fs post =
      Outcome.returned
        ((fs.set (root ++ [name]) (Node.file [])).set (root ++ [name]) (Node.file content))
        [Event.stat (Join (s ++ ['/']) name), Event.create (Join (s ++ ['/']) name),
         Event.copy (Join (s ++ ['/']) name) content,
         Event.write {
          StatusCode := 200
          Proto := post.Proto
          ProtoMajor := post.ProtoMajor
          ProtoMinor := post.ProtoMinor
          Header := [("Content-Type", ["text/plain"])]
          Body := Body.text "File uploaded successfully\n" }] := by
  have hres := resolve_Join fs env.cwd s name root hroot hdir hn
  have hv : isValidExt (Join (s ++ ['/']) name) = true := by
    rw [isValidExt_of_Ext_eq _ name (Ext_Join _ name (by simp) hn)]; exact hext
  have hstat : OS.Stat fs env (Join (s ++ ['/']) name) = false := by
    unfold OS.Stat
    rw [hres]
    simp [hnew]
  have hcreate : OS.Create fs env (Join (s ++ ['/']) name) =
      some (root ++ [name], fs.set (root ++ [name]) (Node.file [])) := by
    unfold OS.Create
    rw [hcr, hres]
    simp [hnew, hdir]
  simp [handlePOST, hform, hv, hstat, hcreate, hio, Header.Set]

/-- An upload whose destination cannot be created is answered 500 and
changes nothing. -/
theorem handlePOST_create_fails (env : Env) (savePath : GoStr) (fs : FS) (post : Request)
    (name : GoStr) (content : Bytes)
    (hform : post.MultipartForm = Form.file name content)
    (hv : isValidExt (Join savePath name) = true)
    (hst : OS.Stat fs env (Join savePath name) = false)
    (hcr : OS.Create fs env (Join savePath name) = none) :
    handlePOST env savePath fs post =
      Outcome.returned fs
        [Event.stat (Join savePath name), Event.create (Join savePath name), Event.write {
          StatusCode := 500
          Proto := post.Proto
          ProtoMajor := post.ProtoMajor
          ProtoMinor := post.ProtoMinor
          Header := [("Content-Type", ["text/plain"])]
          Body := Body.text "Internal Server Error\n" }] := by
  simp only [handlePOST, hform, hv, hst, hcr, Bool.not_true, handleResponse, Header.Set,
    StatusText]
  simp

/-- A GET of `/name` for an ordinary, allow-listed file name bound in the
storage directory answers 200 with what is stored there. -/
theorem handleGET_found (env : Env) (s : GoStr) (fs : FS) (root : Loc) (name : GoStr)
    (node : Node) (get : Request)
    (hroot : fs.resolve env.cwd (s ++ ['/']) = some root)
    (hdir : fs.get root = some Node.dir)
    (hop : env.openFault ((s ++ ['/']) ++ name) = false)
    (hn : plainName name) (hext : isValidExt name = true)
    (hnode : fs.get (root ++ [name]) = some node)
    (hpath : get.URLPath = '/' :: name) :
    handleGET env (s ++ ['/']) fs get =
      Outcome.returned fs
        [Event.fopen ((s ++ ['/']) ++ name),
         Event.write {
          StatusCode := 200
          Proto := get.Proto
          ProtoMajor := get.ProtoMajor
          ProtoMinor := get.ProtoMinor
          Header := [("Content-Type", [getContentType name])]
          Body := fileBody node }] := by
  have hres := resolve_concat fs env.cwd s name root hroot hdir hn
  have he : Ext ((s ++ ['/']) ++ name) = Ext name := Ext_append _ name (Or.inr (by simp))
  have hv : isValidExt ((s ++ ['/']) ++ name) = true := by
    rw [isValidExt_of_Ext_eq _ name he]; exact hext
  have hopen : OS.Open fs env ((s ++ ['/']) ++ name) = some node := by
    unfold OS.Open
    rw [hop, hres]
    simpa using hnode
  have hct := getContentType_of_Ext_eq _ name he
  simp only [handleGET, hpath, TrimPrefixSlash, hv, hopen, hct, Header.Set]
  simp

end FileServer

/-! ## The repository's tests, replayed on the embedding

The tests call the handlers without running `main`, so `savePath` has its
package default, the empty string. -/

namespace Tests

open FileServer

theorem test_HandleGET_NetConn :
    clientHandler Demo.env [] Demo.testFS (some (Demo.fetch "/test.txt"), none) =
      Outcome.returned Demo.testFS [Event.fopen "test.txt".toList, Event.write {
        StatusCode := 200, Proto := "HTTP/1.1", ProtoMajor := 1, ProtoMinor := 1,
        Header := [("Content-Type", ["text/plain"])],
        Body := Body.data [72, 101, 108, 108, 111] }] := by
  decide

theorem test_HandlePOST_NetConn :
    (clientHandler Demo.env [] Demo.testFS
        (some (Demo.upload "upload.txt" [84, 104, 105, 115]), none)).answers = some [200] ∧
    ∃ fs1 log, clientHandler Demo.env [] Demo.testFS
        (some (Demo.upload "upload.txt" [84, 104, 105, 115]), none) = Outcome.returned fs1 log ∧
      OS.Stat fs1 Demo.env (Filepath.Join [] "upload.txt".toList) = true :=
  ⟨by decide, _, _, rfl, by decide⟩

theorem test_HandleGET_NotFound_NetConn :
    (clientHandler Demo.env [] Demo.testFS
        (some (Demo.fetch "/nonexistent.txt"), none)).answers = some [404] := by
  decide

theorem test_HandlePOST_FileExists_NetConn :
    (clientHandler Demo.env [] Demo.testFS
        (some (Demo.upload "existing.txt" [78, 101, 119]), none)).answers = some [409] := by
  decide

theorem test_HandlePOST_InvalidExtension_NetConn :
    (clientHandler Demo.env [] Demo.testFS
        (some (Demo.upload "invalid.exe" [84]), none)).answers = some [400] := by
  decide

theorem test_HandleGET_UnsupportedExtension_NetConn :
    (clientHandler Demo.env [] Demo.testFS
        (some (Demo.fetch "/unsupported.xyz"), none)).answers = some [400] := by
  decide

theorem test_HandleClientRequest_GET_StatusOK :
    (Proxy.handleClient Demo.reachable (some (Demo.fetch "/"), none)).answers = some [200] := by
  decide

theorem test_HandleClientRequest_GET_StatusBadGateway :
    (Proxy.handleClient Demo.unreachable (some (Demo.fetch "/"), none)).answers =
      some [502] := by
  decide

theorem test_HandleClientRequest_NotImplemented :
    (Proxy.handleClient Demo.reachable
        (some (Demo.request "POST" "/" Form.missingFile), none)).answers = some [501] := by
  decide

/-- Where the kernel rejects the file name (a NUL byte), `os.Create` fails:
the upload is answered 500, nothing is stored, and a GET of the name is
answered 404. -/
theorem upload_nul_name_answers_500 :
    (clientHandler Demo.strict (mainSavePath (some "data".toList)) Demo.fs0
        (some (Demo.uploadAs Demo.nulName [104, 105]), none)).answers = some [500] ∧
    (clientHandler Demo.strict (mainSavePath (some "data".toList)) Demo.fs0
        (some { Demo.fetch "/" with URLPath := '/' :: Demo.nulName }, none)).answers =
      some [404] := by
  decide

set_option maxRecDepth 100000 in
/-- Where the kernel rejects the file name (an element of 304 bytes),
`os.Create` fails: the upload is answered 500 and nothing is stored. -/
theorem upload_long_name_answers_500 :
    clientHandler Demo.strict (mainSavePath (some "data".toList)) Demo.fs0
        (some (Demo.uploadAs Demo.longName [104, 105]), none) =
      Outcome.returned Demo.fs0
        [Event.stat (Filepath.Join (mainSavePath (some "data".toList)) Demo.longName),
         Event.create (Filepath.Join (mainSavePath (some "data".toList)) Demo.longName),
         Event.write {
          StatusCode := 500, Proto := "HTTP/1.1", ProtoMajor := 1, ProtoMinor := 1,
          Header := [("Content-Type", ["text/plain"])],
          Body := Body.text "Internal Server Error\n" }] := by
  decide

theorem test_ForwardRequest_InvalidURL :
    (Proxy.proxyRequest Demo.unreachable (Demo.fetch "/")).1 = none := by
  decide

end Tests

/-! ## The claims -/

namespace FileServer

open Strings Filepath FS

/-- C1. Round trip on the file server.  For every storage root `main` sets
(`mainSavePath arg`) that exists, every file name
(a single path element) with an allow-listed extension not yet present in
that directory, and every content: the path `handlePOST` writes,
`filepath.Join(savePath, name)`, and the path `handleGET` opens,
`savePath + name`, denote the same location.  When the environment lets
`os.Create` of the first and `os.Open` of the second go through (the kernel
accepts the name, permissions and space allow) and `io.Copy` does not fail,
the POST answers 200 and stores the content, and the following GET of
`/name` answers 200 with exactly the uploaded bytes and the Content-Type of
the extension table. -/
theorem upload_then_get_roundtrip (env : Env) (arg : Option GoStr) (fs : FS) (root : Loc)
    (name : GoStr) (content : Bytes) (post get : Request)
    (hroot : fs.resolve env.cwd (mainSavePath arg) = some root)
    (hcreate : env.createFault (Join (mainSavePath arg) name) = false)
    (hio : env.copyFault = none)
    (hopen : env.openFault (mainSavePath arg ++ name) = false)
    (hname : '/' ∉ name) (hext : isValidExt name = true)
    (hnew : fs.get (root ++ [name]) = none)
    (hpost : post.Method = "POST") (hform : post.MultipartForm = Form.file name content)
    (hget : get.Method = "GET") (hpath : get.URLPath = '/' :: name) :
    fs.resolve env.cwd (Join (mainSavePath arg) name) = some (root ++ [name]) ∧
    ((fs.set (root ++ [name]) (Node.file [])).set (root ++ [name]) (Node.file content)).resolve
      env.cwd (mainSavePath arg ++ name) = some (root ++ [name]) ∧
    clientHandler env (mainSavePath arg) fs (some post, none) =
      Outcome.returned
        ((fs.set (root ++ [name]) (Node.file [])).set (root ++ [name]) (Node.file content))
        [Event.stat (Join (mainSavePath arg) name), Event.create (Join (mainSavePath arg) name),
         Event.copy (Join (mainSavePath arg) name) content,
         Event.write {
          StatusCode := 200
          Proto := post.Proto
          ProtoMajor := post.ProtoMajor
          ProtoMinor := post.ProtoMinor
          Header := [("Content-Type", ["text/plain"])]
          Body := Body.text "File uploaded successfully\n" }] ∧
    clientHandler env (mainSavePath arg)
        ((fs.set (root ++ [name]) (Node.file [])).set (root ++ [name]) (Node.file content))
        (some get, none) =
      Outcome.returned
        ((fs.set (root ++ [name]) (Node.file [])).set (root ++ [name]) (Node.file content))
        [Event.fopen (mainSavePath arg ++ name),
         Event.write {
          StatusCode := 200
          Proto := get.Proto
          ProtoMajor := get.ProtoMajor
          ProtoMinor := get.ProtoMinor
          Header := [("Content-Type", [getContentType name])]
          Body := Body.data content }] ∧
    (Ext name = ".html".toList → getContentType name = "text/html") ∧
    (Ext name = ".gif".toList → getContentType name = "image/gif") ∧
    (Ext name = ".txt".toList → getContentType name = "text/plain") ∧
    (Ext name = ".jpg".toList → getContentType name = "image/jpeg") ∧
    (Ext name = ".jpeg".toList → getContentType name = "image/jpeg") ∧
    (Ext name = ".css".toList → getContentType name = "text/css") := by
  obtain ⟨s, hs⟩ := mainSavePath_shape arg
  rw [hs] at hroot hcreate hopen ⊢
  have hdir := dir_of_resolve_dirpath fs env.cwd s root hroot
  have hn := plainName_of_isValidExt name hname hext
  have hmono := stored_dirs fs (root ++ [name]) content hnew
  have hroot1 := resolve_mono fs _ hmono env.cwd _ root hroot
  have hdir1 := hmono root hdir
  refine ⟨resolve_Join fs env.cwd s name root hroot hdir hn,
    resolve_concat _ env.cwd s name root hroot1 hdir1 hn, ?_, ?_, ?_⟩
  · have hp : post.Method ≠ "GET" := by rw [hpost]; decide
    simp only [clientHandler, ne_eq, not_true_eq_false, false_and, if_false, hp, hpost, if_true]
    exact handlePOST_new env s fs root name content post hroot hdir hcreate hio hn hext hnew
      hform
  · simp only [clientHandler, ne_eq, not_true_eq_false, false_and, if_false, hget, if_true]
    exact handleGET_found env s _ root name (Node.file content) get hroot1 hdir1 hopen hn hext
      (get_set_self _ _ _) hpath
  · refine ⟨?_, ?_, ?_, ?_, ?_, ?_⟩ <;> intro h <;> simp only [getContentType, h] <;> decide

/-- C1 at a concrete input: `hi` uploaded as `a.txt` into `/srv/data` (the
server started in `/srv` with the argument `data`) is served back. -/
theorem upload_then_get_roundtrip_witness :
    clientHandler Demo.env (mainSavePath (some "data".toList))
        ((Demo.fs0.set ["srv".toList, "data".toList, "a.txt".toList] (Node.file [])).set
          ["srv".toList, "data".toList, "a.txt".toList] (Node.file [104, 105]))
        (some (Demo.fetch "/a.txt"), none) =
      Outcome.returned
        ((Demo.fs0.set ["srv".toList, "data".toList, "a.txt".toList] (Node.file [])).set
          ["srv".toList, "data".toList, "a.txt".toList] (Node.file [104, 105]))
        [Event.fopen (mainSavePath (some "data".toList) ++ "a.txt".toList),
         Event.write {
          StatusCode := 200
          Proto := "HTTP/1.1"
          ProtoMajor := 1
          ProtoMinor := 1
          Header := [("Content-Type", [getContentType "a.txt".toList])]
          Body := Body.data [104, 105] }] :=
  (upload_then_get_roundtrip Demo.env (some "data".toList) Demo.fs0
    ["srv".toList, "data".toList] "a.txt".toList [104, 105]
    (Demo.upload "a.txt" [104, 105]) (Demo.fetch "/a.txt")
    (by decide) (by decide) (by decide) (by decide) (by decide) (by decide)
    (by decide) (by decide) (by decide) (by decide) (by decide)).2.2.2.1

end FileServer

namespace FileServer

open Strings Filepath FS

theorem Ext_TrimPrefixSlash (p : GoStr) : Ext (TrimPrefixSlash p) = Ext p := by
  unfold TrimPrefixSlash
  split
  · rename_i rest
    exact (Ext_append ['/'] rest (Or.inr rfl)).symm
  · rfl

/-- The extension test of `handleGET` only looks at the request path. -/
theorem isValidExt_get_path (arg : Option GoStr) (p : GoStr) :
    isValidExt (mainSavePath arg ++ TrimPrefixSlash p) = isValidExt p := by
  obtain ⟨s, hs⟩ := mainSavePath_shape arg
  apply isValidExt_of_Ext_eq
  rw [hs, Ext_append _ _ (Or.inr (by simp)), Ext_TrimPrefixSlash]

/-- C2, as the code has it.  For every storage root `main` sets: a GET of a
path whose extension is not allow-listed is answered with 400, and a POST
uploading under an ordinary file name (one path element other than `.` and
`..`) whose extension is not allow-listed is answered with 400; in both
cases exactly that response is written, no file is looked up, opened or
created, and the file system is unchanged. -/
theorem bad_extension_rejected (env : Env) (arg : Option GoStr) (fs : FS)
    (get post : Request) (name : GoStr) (content : Bytes)
    (hget : get.Method = "GET") (hgext : isValidExt get.URLPath = false)
    (hpost : post.Method = "POST") (hform : post.MultipartForm = Form.file name content)
    (hname : plainName name) (hpext : isValidExt name = false) :
    clientHandler env (mainSavePath arg) fs (some get, none) =
      Outcome.returned fs [Event.write {
        StatusCode := 400
        Proto := get.Proto
        ProtoMajor := get.ProtoMajor
        ProtoMinor := get.ProtoMinor
        Header := [("Content-Type", ["text/plain"])]
        Body := Body.text "Bad Request\n" }] ∧
    clientHandler env (mainSavePath arg) fs (some post, none) =
      Outcome.returned fs [Event.write {
        StatusCode := 400
        Proto := post.Proto
        ProtoMajor := post.ProtoMajor
        ProtoMinor := post.ProtoMinor
        Header := [("Content-Type", ["text/plain"])]
        Body := Body.text "Bad Request\n" }] := by
  constructor
  · have hv := isValidExt_get_path arg get.URLPath
    rw [hgext] at hv
    simp only [clientHandler, ne_eq, not_true_eq_false, false_and, if_false, hget, if_true,
      handleGET, hv, Bool.not_false, handleResponse, Header.Set, StatusText]
    simp
  · obtain ⟨s, hs⟩ := mainSavePath_shape arg
    have hv : isValidExt (Join (mainSavePath arg) name) = false := by
      rw [isValidExt_of_Ext_eq _ name (Ext_Join _ name (by simp [hs]) hname)]; exact hpext
    have hp : post.Method ≠ "GET" := by rw [hpost]; decide
    simp only [clientHandler, ne_eq, not_true_eq_false, false_and, if_false, hp, hpost, if_true,
      handlePOST, hform, hv, Bool.not_false, handleResponse, Header.Set, StatusText]
    simp

/-- C2 at a concrete input: `GET /unsupported.xyz` and an upload named
`invalid.exe`, the requests of the repository's tests. -/
theorem bad_extension_rejected_witness :
    clientHandler Demo.env (mainSavePath none) Demo.fs0
        (some (Demo.fetch "/unsupported.xyz"), none) =
      Outcome.returned Demo.fs0 [Event.write {
        StatusCode := 400
        Proto := "HTTP/1.1"
        ProtoMajor := 1
        ProtoMinor := 1
        Header := [("Content-Type", ["text/plain"])]
        Body := Body.text "Bad Request\n" }] :=
  (bad_extension_rejected Demo.env none Demo.fs0 (Demo.fetch "/unsupported.xyz")
    (Demo.upload "invalid.exe" [1, 2]) "invalid.exe".toList [1, 2]
    (by decide) (by decide) (by decide) (by decide) (by decide) (by decide)).1

/-- C2 fails as stated.  With the storage root `site.html/` (the server
started in `/srv` with the argument `site.html`), an upload under the file
name `.`, whose extension `.` is not allow-listed, is answered with 409:
`filepath.Join("site.html/", ".")` is `site.html`, whose extension is
allow-listed and which exists. -/
theorem dot_upload_answers_conflict :
    isValidExt ".".toList = false ∧
    Join (mainSavePath (some "site.html".toList)) ".".toList = "site.html".toList ∧
    clientHandler Demo.env (mainSavePath (some "site.html".toList)) Demo.fs0
        (some (Demo.upload "." [1, 2]), none) =
      Outcome.returned Demo.fs0 [Event.stat "site.html".toList, Event.write {
        StatusCode := 409
        Proto := "HTTP/1.1"
        ProtoMajor := 1
        ProtoMinor := 1
        Header := [("Content-Type", ["text/plain"])]
        Body := Body.text "Conflict\n" }] := by
  decide

end FileServer

namespace FileServer

open Strings Filepath FS

/-- An upload whose destination exists is answered 409 and changes
nothing. -/
theorem handlePOST_exists (env : Env) (savePath : GoStr) (fs : FS) (post : Request)
    (name : GoStr) (content : Bytes)
    (hform : post.MultipartForm = Form.file name content)
    (hv : isValidExt (Join savePath name) = true)
    (hex : OS.Stat fs env (Join savePath name) = true) :
    handlePOST env savePath fs post =
      Outcome.returned fs [Event.stat (Join savePath name), Event.write {
        StatusCode := 409
        Proto := post.Proto
        ProtoMajor := post.ProtoMajor
        ProtoMinor := post.ProtoMinor
        Header := [("Content-Type", ["text/plain"])]
        Body := Body.text "Conflict\n" }] := by
  simp only [handlePOST, hform, hv, hex, Bool.not_true, if_true, handleResponse, Header.Set,
    StatusText]
  simp

theorem clientHandler_post (env : Env) (savePath : GoStr) (fs : FS) (post : Request)
    (hpost : post.Method = "POST") :
    clientHandler env savePath fs (some post, none) = handlePOST env savePath fs post := by
  simp [clientHandler, hpost]

/-- C3. No overwrite.  Every POST upload whose destination path
`filepath.Join(savePath, name)` has an allow-listed extension and names
something that exists is answered 409 and leaves the file system unchanged
(first part, for every storage root and file system).  In particular, for a
storage root as `main` sets it that exists and a new file name (a single
path element with an allow-listed extension), when the environment lets
`os.Create` and the second `os.Stat` of the destination go through and
`io.Copy` does not fail:
the first upload answers 200, a second upload of the same name, with any
content, answers 409, the file system after it is the one after the first
upload, and the destination still holds the first upload's bytes. -/
theorem second_upload_conflict (env : Env) (arg : Option GoStr) (fs : FS) (root : Loc)
    (name : GoStr) (first second : Bytes) (post1 post2 : Request)
    (hroot : fs.resolve env.cwd (mainSavePath arg) = some root)
    (hcreate : env.createFault (Join (mainSavePath arg) name) = false)
    (hio : env.copyFault = none)
    (hstat : env.statFault (Join (mainSavePath arg) name) = false)
    (hname : '/' ∉ name) (hext : isValidExt name = true)
    (hnew : fs.get (root ++ [name]) = none)
    (hpost1 : post1.Method = "POST") (hform1 : post1.MultipartForm = Form.file name first)
    (hpost2 : post2.Method = "POST") (hform2 : post2.MultipartForm = Form.file name second) :
    (∀ (savePath : GoStr) (fs1 : FS) (post : Request) (n : GoStr) (c : Bytes),
      post.Method = "POST" → post.MultipartForm = Form.file n c →
      isValidExt (Join savePath n) = true → OS.Stat fs1 env (Join savePath n) = true →
      clientHandler env savePath fs1 (some post, none) =
        Outcome.returned fs1 [Event.stat (Join savePath n), Event.write {
          StatusCode := 409
          Proto := post.Proto
          ProtoMajor := post.ProtoMajor
          ProtoMinor := post.ProtoMinor
          Header := [("Content-Type", ["text/plain"])]
          Body := Body.text "Conflict\n" }]) ∧
    clientHandler env (mainSavePath arg) fs (some post1, none) =
      Outcome.returned
        ((fs.set (root ++ [name]) (Node.file [])).set (root ++ [name]) (Node.file first))
        [Event.stat (Join (mainSavePath arg) name), Event.create (Join (mainSavePath arg) name),
         Event.copy (Join (mainSavePath arg) name) first,
         Event.write {
          StatusCode := 200
          Proto := post1.Proto
          ProtoMajor := post1.ProtoMajor
          ProtoMinor := post1.ProtoMinor
          Header := [("Content-Type", ["text/plain"])]
          Body := Body.text "File uploaded successfully\n" }] ∧
    clientHandler env (mainSavePath arg)
        ((fs.set (root ++ [name]) (Node.file [])).set (root ++ [name]) (Node.file first))
        (some post2, none) =
      Outcome.returned
        ((fs.set (root ++ [name]) (Node.file [])).set (root ++ [name]) (Node.file first))
        [Event.stat (Join (mainSavePath arg) name), Event.write {
          StatusCode := 409
          Proto := post2.Proto
          ProtoMajor := post2.ProtoMajor
          ProtoMinor := post2.ProtoMinor
          Header := [("Content-Type", ["text/plain"])]
          Body := Body.text "Conflict\n" }] ∧
    ((fs.set (root ++ [name]) (Node.file [])).set (root ++ [name]) (Node.file first)).resolve
      env.cwd (Join (mainSavePath arg) name) = some (root ++ [name]) ∧
    ((fs.set (root ++ [name]) (Node.file [])).set (root ++ [name]) (Node.file first)).get
      (root ++ [name]) = some (Node.file first) := by
  obtain ⟨s, hs⟩ := mainSavePath_shape arg
  rw [hs] at hroot hcreate hstat ⊢
  have hdir := dir_of_resolve_dirpath fs env.cwd s root hroot
  have hn := plainName_of_isValidExt name hname hext
  have hmono := stored_dirs fs (root ++ [name]) first hnew
  have hroot1 := resolve_mono fs _ hmono env.cwd _ root hroot
  have hdir1 := hmono root hdir
  have hres1 := resolve_Join _ env.cwd s name root hroot1 hdir1 hn
  have hv : isValidExt (Join (s ++ ['/']) name) = true := by
    rw [isValidExt_of_Ext_eq _ name (Ext_Join _ name (by simp) hn)]; exact hext
  refine ⟨?_, ?_, ?_, hres1, get_set_self _ _ _⟩
  · intro savePath fs1 post n c hp hf hv1 hex
    rw [clientHandler_post env savePath fs1 post hp]
    exact handlePOST_exists env savePath fs1 post n c hf hv1 hex
  · rw [clientHandler_post env _ fs post1 hpost1]
    exact handlePOST_new env s fs root name first post1 hroot hdir hcreate hio hn hext hnew
      hform1
  · rw [clientHandler_post env _ _ post2 hpost2]
    apply handlePOST_exists env _ _ post2 name second hform2 hv
    unfold OS.Stat
    rw [hstat, hres1]
    simp [get_set_self]

/-- C3 at a concrete input: `a.txt` uploaded twice into `/srv/data`, first
with `hi`, then with other bytes; the second answer is 409. -/
theorem second_upload_conflict_witness :
    clientHandler Demo.env (mainSavePath (some "data".toList))
        ((Demo.fs0.set ["srv".toList, "data".toList, "a.txt".toList] (Node.file [])).set
          ["srv".toList, "data".toList, "a.txt".toList] (Node.file [104, 105]))
        (some (Demo.upload "a.txt" [9, 9, 9]), none) =
      Outcome.returned
        ((Demo.fs0.set ["srv".toList, "data".toList, "a.txt".toList] (Node.file [])).set
          ["srv".toList, "data".toList, "a.txt".toList] (Node.file [104, 105]))
        [Event.stat (Join (mainSavePath (some "data".toList)) "a.txt".toList), Event.write {
          StatusCode := 409
          Proto := "HTTP/1.1"
          ProtoMajor := 1
          ProtoMinor := 1
          Header := [("Content-Type", ["text/plain"])]
          Body := Body.text "Conflict\n" }] :=
  (second_upload_conflict Demo.env (some "data".toList) Demo.fs0
    ["srv".toList, "data".toList] "a.txt".toList [104, 105] [9, 9, 9]
    (Demo.upload "a.txt" [104, 105]) (Demo.upload "a.txt" [9, 9, 9])
    (by decide) (by decide) (by decide) (by decide) (by decide) (by decide)
    (by decide) (by decide) (by decide) (by decide) (by decide)).2.2.1

end FileServer

namespace FileServer

open Strings Filepath FS

theorem clientHandler_get (env : Env) (savePath : GoStr) (fs : FS) (get : Request)
    (hget : get.Method = "GET") :
    clientHandler env savePath fs (some get, none) = handleGET env savePath fs get := by
  simp [clientHandler, hget]

/-- A GET whose file cannot be opened is answered 404. -/
theorem handleGET_open_fails (env : Env) (savePath : GoStr) (fs : FS) (get : Request)
    (hv : isValidExt (savePath ++ TrimPrefixSlash get.URLPath) = true)
    (hfail : OS.Open fs env (savePath ++ TrimPrefixSlash get.URLPath) = none) :
    handleGET env savePath fs get =
      Outcome.returned fs [Event.fopen (savePath ++ TrimPrefixSlash get.URLPath), Event.write {
        StatusCode := 404
        Proto := get.Proto
        ProtoMajor := get.ProtoMajor
        ProtoMinor := get.ProtoMinor
        Header := [("Content-Type", ["text/plain"])]
        Body := Body.text "Not Found\n" }] := by
  simp only [handleGET, hv, hfail, Bool.not_true, handleResponse, Header.Set, StatusText]
  simp

/-- The statuses `handleGET` can answer with. -/
theorem handleGET_statuses (env : Env) (savePath : GoStr) (fs : FS) (get : Request) :
    ∃ log, handleGET env savePath fs get = Outcome.returned fs log ∧
      (statuses log = [200] ∨ statuses log = [400] ∨ statuses log = [404]) := by
  by_cases hv : isValidExt (savePath ++ TrimPrefixSlash get.URLPath) = true
  · cases ho : OS.Open fs env (savePath ++ TrimPrefixSlash get.URLPath) with
    | none =>
      simp only [handleGET, hv, ho, Bool.not_true, Bool.false_eq_true, if_false, handleResponse]
      exact ⟨_, rfl, Or.inr (Or.inr rfl)⟩
    | some node =>
      simp only [handleGET, hv, ho, Bool.not_true, Bool.false_eq_true, if_false]
      exact ⟨_, rfl, Or.inl rfl⟩
  · simp only [Bool.not_eq_true] at hv
    simp only [handleGET, hv, Bool.not_false, if_true, handleResponse]
    exact ⟨_, rfl, Or.inr (Or.inl rfl)⟩

/-- C4, as the code has it.  For every GET request: when its path has an
allow-listed extension and `os.Open` of the file fails, for whatever reason
and in particular because nothing exists at the location the path denotes,
the answer is 404 and nothing else happens; and every GET returns with
exactly one response written, of status 200, 400 or 404, never 500, and the
file system unchanged. -/
theorem get_open_failure_not_found (env : Env) (arg : Option GoStr) (fs : FS) (get : Request)
    (hget : get.Method = "GET") :
    (isValidExt get.URLPath = true →
      OS.Open fs env (mainSavePath arg ++ TrimPrefixSlash get.URLPath) = none →
      clientHandler env (mainSavePath arg) fs (some get, none) =
        Outcome.returned fs
          [Event.fopen (mainSavePath arg ++ TrimPrefixSlash get.URLPath), Event.write {
            StatusCode := 404
            Proto := get.Proto
            ProtoMajor := get.ProtoMajor
            ProtoMinor := get.ProtoMinor
            Header := [("Content-Type", ["text/plain"])]
            Body := Body.text "Not Found\n" }]) ∧
    (∀ t, fs.resolve env.cwd (mainSavePath arg ++ TrimPrefixSlash get.URLPath) = some t →
      fs.get t = none →
      OS.Open fs env (mainSavePath arg ++ TrimPrefixSlash get.URLPath) = none) ∧
    (∃ log, clientHandler env (mainSavePath arg) fs (some get, none) = Outcome.returned fs log ∧
      (statuses log = [200] ∨ statuses log = [400] ∨ statuses log = [404]) ∧
      500 ∉ statuses log) := by
  rw [clientHandler_get env _ fs get hget]
  refine ⟨?_, ?_, ?_⟩
  · intro hv hfail
    rw [← isValidExt_get_path arg] at hv
    exact handleGET_open_fails env _ fs get hv hfail
  · intro t ht hnone
    unfold OS.Open
    rw [ht]
    simp [hnone]
  · obtain ⟨log, hlog, hst⟩ := handleGET_statuses env (mainSavePath arg) fs get
    refine ⟨log, hlog, hst, ?_⟩
    rcases hst with h | h | h <;> rw [h] <;> decide

/-- C4 at a concrete input: `GET /nonexistent.txt`, the request of the
repository's test, is answered 404. -/
theorem get_open_failure_not_found_witness :
    clientHandler Demo.env (mainSavePath (some "data".toList)) Demo.fs0
        (some (Demo.fetch "/nonexistent.txt"), none) =
      Outcome.returned Demo.fs0
        [Event.fopen (mainSavePath (some "data".toList) ++
            TrimPrefixSlash (Demo.fetch "/nonexistent.txt").URLPath),
         Event.write {
          StatusCode := 404
          Proto := "HTTP/1.1"
          ProtoMajor := 1
          ProtoMinor := 1
          Header := [("Content-Type", ["text/plain"])]
          Body := Body.text "Not Found\n" }] :=
  (get_open_failure_not_found Demo.env (some "data".toList) Demo.fs0
    (Demo.fetch "/nonexistent.txt") (by decide)).1 (by decide) (by decide)

/-- C4 fails as stated.  `/srv/data/d.txt` is a directory: `os.Open`
succeeds on it, so `GET /d.txt` is answered with status 200 although the
body cannot be read; this read failure is not answered 404. -/
theorem get_directory_answers_ok :
    isValidExt "/d.txt".toList = true ∧
    OS.Open Demo.fs0 Demo.env "data/d.txt".toList = some Node.dir ∧
    clientHandler Demo.env (mainSavePath (some "data".toList)) Demo.fs0
        (some (Demo.fetch "/d.txt"), none) =
      Outcome.returned Demo.fs0
        [Event.fopen "data/d.txt".toList,
         Event.write {
          StatusCode := 200
          Proto := "HTTP/1.1"
          ProtoMajor := 1
          ProtoMinor := 1
          Header := [("Content-Type", ["text/plain"])]
          Body := Body.unreadable }] := by
  decide

/-- C7.  When `http.ReadRequest` fails with an error other than `io.EOF`,
and so returns no request, `clientHandler` passes the nil request to
`handleResponse`, which dereferences it: the handler panics and writes
nothing. -/
theorem clientHandler_decode_error_panics (env : Env) (savePath : GoStr) (fs : FS) :
    clientHandler env savePath fs (none, some ReadErr.other) = Outcome.panicked := by
  simp [clientHandler, handleResponse]

/-- C8.  When `http.ReadRequest` returns `io.EOF` and no request,
`clientHandler` skips the error branch and reads `req.Method` of the nil
request: the handler panics instead of returning. -/
theorem clientHandler_eof_panics (env : Env) (savePath : GoStr) (fs : FS) :
    clientHandler env savePath fs (none, some ReadErr.eof) = Outcome.panicked := by
  simp [clientHandler]

theorem walk_isPrefix (fs : FS) (comps : List GoStr) (h : ∀ c ∈ comps, c ≠ dotdot) :
    ∀ (cur d : Loc), walk fs cur comps = some d → cur <+: d := by
  induction comps with
  | nil =>
    intro cur d hw
    simp only [walk, Option.some.injEq] at hw
    rw [hw]
  | cons c cs ih =>
    intro cur d hw
    simp only [walk] at hw
    cases hs : step fs cur c with
    | none => rw [hs] at hw; simp at hw
    | some nxt =>
      rw [hs] at hw
      simp only [Option.some_bind] at hw
      have hd := step_dir fs cur nxt c hs
      rw [step_of_dir fs cur c hd] at hs
      have hc : c ≠ dotdot := h c (by simp)
      have hnext := ih (fun x hx => h x (List.mem_cons_of_mem _ hx)) nxt d hw
      by_cases h1 : c = [] ∨ c = ['.']
      · simp only [h1, if_true, Option.some.injEq] at hs
        rw [hs]; exact hnext
      · simp only [h1, if_false, hc, Option.some.injEq] at hs
        rw [← hs] at hnext
        exact List.IsPrefix.trans (List.prefix_append cur [c]) hnext

theorem mem_splitSlash_TrimPrefixSlash (p c : GoStr) (h : c ∈ splitSlash (TrimPrefixSlash p)) :
    c ∈ splitSlash p := by
  unfold TrimPrefixSlash at h
  split at h
  · simp [splitSlash, h]
  · exact h

/-- C9, as the code has it.  `handleGET` opens at most the one path
`savePath + strings.TrimPrefix(URL.Path, "/")`, unchanged.  For a storage
root that resolves to `root` and a URL path without a `..` element,
whatever that path denotes lies inside the storage root. -/
theorem get_path_inside_root (env : Env) (arg : Option GoStr) (fs : FS) (root : Loc)
    (get : Request)
    (hroot : fs.resolve env.cwd (mainSavePath arg) = some root)
    (hget : get.Method = "GET")
    (hdots : dotdot ∉ splitSlash get.URLPath) :
    ∃ log, clientHandler env (mainSavePath arg) fs (some get, none) = Outcome.returned fs log ∧
      (opened log = [] ∨ opened log = [mainSavePath arg ++ TrimPrefixSlash get.URLPath]) ∧
      ∀ p ∈ opened log, ∀ d, fs.resolve env.cwd p = some d → root <+: d := by
  rw [clientHandler_get env _ fs get hget]
  have hopened : ∃ log, handleGET env (mainSavePath arg) fs get = Outcome.returned fs log ∧
      (opened log = [] ∨ opened log = [mainSavePath arg ++ TrimPrefixSlash get.URLPath]) := by
    by_cases hv : isValidExt (mainSavePath arg ++ TrimPrefixSlash get.URLPath) = true
    · cases ho : OS.Open fs env (mainSavePath arg ++ TrimPrefixSlash get.URLPath) with
      | none =>
        simp only [handleGET, hv, ho, Bool.not_true, Bool.false_eq_true, if_false,
          handleResponse]
        exact ⟨_, rfl, Or.inr rfl⟩
      | some node =>
        simp only [handleGET, hv, ho, Bool.not_true, Bool.false_eq_true, if_false]
        exact ⟨_, rfl, Or.inr rfl⟩
    · simp only [Bool.not_eq_true] at hv
      simp only [handleGET, hv, Bool.not_false, if_true, handleResponse]
      exact ⟨_, rfl, Or.inl rfl⟩
  obtain ⟨log, hlog, hop⟩ := hopened
  refine ⟨log, hlog, hop, ?_⟩
  intro p hp d hd
  have hpeq : p = mainSavePath arg ++ TrimPrefixSlash get.URLPath := by
    rcases hop with h | h
    · rw [h] at hp; simp at hp
    · rw [h] at hp; simpa using hp
  subst hpeq
  obtain ⟨s, hs⟩ := mainSavePath_shape arg
  rw [hs] at hroot hd
  have hw := walk_dirpath fs env.cwd s root hroot
  rw [resolve_eq_walk fs env.cwd _ (by simp), head_append_of_ne_nil _ _ (by simp)] at hd
  have e : splitSlash ((s ++ ['/']) ++ TrimPrefixSlash get.URLPath) =
      splitSlash s ++ splitSlash (TrimPrefixSlash get.URLPath) := by
    rw [List.append_assoc, List.singleton_append, splitSlash_append_slash]
  rw [e, walk_append, hw] at hd
  simp only [Option.some_bind] at hd
  exact walk_isPrefix fs _
    (fun c hc hcd => hdots (hcd ▸ mem_splitSlash_TrimPrefixSlash _ c hc)) root d hd

/-- C9 at a concrete input: `GET /old.txt` opens `data/old.txt`, inside
`/srv/data`. -/
theorem get_path_inside_root_witness :
    ∃ log, clientHandler Demo.env (mainSavePath (some "data".toList)) Demo.fs0
        (some (Demo.fetch "/old.txt"), none) = Outcome.returned Demo.fs0 log ∧
      (opened log = [] ∨ opened log = [mainSavePath (some "data".toList) ++
        TrimPrefixSlash (Demo.fetch "/old.txt").URLPath]) ∧
      ∀ p ∈ opened log, ∀ d, Demo.fs0.resolve Demo.env.cwd p = some d →
        ["srv".toList, "data".toList] <+: d :=
  get_path_inside_root Demo.env (some "data".toList) Demo.fs0 ["srv".toList, "data".toList]
    (Demo.fetch "/old.txt") (by decide) (by decide) (by decide)

/-- C9 fails as stated.  With the storage root `/srv/data`,
`GET /../secret.txt` opens `data/../secret.txt`, which denotes
`/srv/secret.txt`, outside the storage root, and its content is served. -/
theorem get_dotdot_escapes_root :
    Demo.fs0.resolve Demo.env.cwd (mainSavePath (some "data".toList)) =
      some ["srv".toList, "data".toList] ∧
    Demo.fs0.resolve Demo.env.cwd "data/../secret.txt".toList =
      some ["srv".toList, "secret.txt".toList] ∧
    ¬ (["srv".toList, "data".toList] <+: ["srv".toList, "secret.txt".toList]) ∧
    clientHandler Demo.env (mainSavePath (some "data".toList)) Demo.fs0
        (some (Demo.fetch "/../secret.txt"), none) =
      Outcome.returned Demo.fs0
        [Event.fopen "data/../secret.txt".toList,
         Event.write {
          StatusCode := 200
          Proto := "HTTP/1.1"
          ProtoMajor := 1
          ProtoMinor := 1
          Header := [("Content-Type", ["text/plain"])]
          Body := Body.data [115, 51] }] := by
  decide

end FileServer

namespace Proxy

/-- The two ways `proxyRequest` fails: `http.NewRequest` rejects the URL, or
`client.Do` returns an error. -/
theorem proxyRequest_fails_iff (net : Net) (request : Request) :
    (proxyRequest net request).1 = none ↔
      (net.newRequest (upstreamURL request) = false ∨
        net.roundTrip (upstreamURL request)
          (copyHeader request.Header) = none) := by
  cases h : net.newRequest (upstreamURL request) <;> simp [proxyRequest, h]

theorem responses_proxyRequest (net : Net) (request : Request) :
    responses (proxyRequest net request).2 = [] := by
  cases h : net.newRequest (upstreamURL request) <;>
    simp [proxyRequest, h, responses]

theorem responses_append (xs ys : List Event) :
    responses (xs ++ ys) = responses xs ++ responses ys := by
  induction xs with
  | nil => rfl
  | cons x xs ih => cases x <;> simp [responses, ih]

/-- C5. Unhandled methods.  For every successfully parsed request whose
method is not `GET`, the proxy's `handleClient` writes exactly one response,
with status 501 and the request's protocol version, and issues no upstream
request; when the method is not `POST` either, the file server's
`clientHandler` writes exactly one response, with status 501 and the
request's protocol version, performs no file access and leaves the file
system unchanged. -/
theorem unhandled_method_not_implemented (env : Env) (savePath : GoStr) (fs : FS)
    (net : Net) (req : Request) (hget : req.Method ≠ "GET") :
    handleClient net (some req, none) =
      Outcome.returned [Event.write {
        StatusCode := 501
        Proto := req.Proto
        ProtoMajor := req.ProtoMajor
        ProtoMinor := req.ProtoMinor
        Header := [("Content-Type", ["text/plain"])]
        Body := Body.text "Not Implemented\n" }] ∧
    (req.Method ≠ "POST" →
      FileServer.clientHandler env savePath fs (some req, none) =
        HttpServer.Outcome.returned fs [Event.write {
          StatusCode := 501
          Proto := req.Proto
          ProtoMajor := req.ProtoMajor
          ProtoMinor := req.ProtoMinor
          Header := [("Content-Type", ["text/plain"])]
          Body := Body.text "Not Implemented\n" }]) := by
  constructor
  · simp only [handleClient, ne_eq, not_true_eq_false, if_false, hget, not_false_eq_true, if_true,
      handleResponse, Header.Set, StatusText]
    simp
  · intro hpost
    simp only [FileServer.clientHandler, ne_eq, not_true_eq_false, false_and, if_false, hget,
      hpost, FileServer.handleResponse, Header.Set, StatusText]
    simp

/-- C5 at a concrete input: `DELETE /a.txt` on both services. -/
theorem unhandled_method_not_implemented_witness :
    handleClient Demo.unreachable (some (Demo.request "DELETE" "/a.txt" Form.missingFile), none) =
      Outcome.returned [Event.write {
        StatusCode := 501
        Proto := "HTTP/1.1"
        ProtoMajor := 1
        ProtoMinor := 1
        Header := [("Content-Type", ["text/plain"])]
        Body := Body.text "Not Implemented\n" }] ∧
    FileServer.clientHandler Demo.env "./".toList Demo.fs0
        (some (Demo.request "DELETE" "/a.txt" Form.missingFile), none) =
      HttpServer.Outcome.returned Demo.fs0 [Event.write {
        StatusCode := 501
        Proto := "HTTP/1.1"
        ProtoMajor := 1
        ProtoMinor := 1
        Header := [("Content-Type", ["text/plain"])]
        Body := Body.text "Not Implemented\n" }] :=
  have h := unhandled_method_not_implemented Demo.env "./".toList Demo.fs0 Demo.unreachable
    (Demo.request "DELETE" "/a.txt" Form.missingFile) (by decide)
  ⟨h.1, h.2 (by decide)⟩

/-- C6. Forwarding failure.  For every GET request to the proxy for which
`proxyRequest` returns an error, `handleClient` returns having written
exactly one response: status 502, the request's protocol version, the body
`Bad Gateway`; nothing of an upstream response is written.  The error is
either `http.NewRequest` rejecting `http://<Host><path>` or `client.Do`
failing. -/
theorem forwarding_failure_bad_gateway (net : Net) (req : Request)
    (hget : req.Method = "GET") (hfail : (proxyRequest net req).1 = none) :
    handleClient net (some req, none) =
      Outcome.returned ((proxyRequest net req).2 ++ [Event.write {
        StatusCode := 502
        Proto := req.Proto
        ProtoMajor := req.ProtoMajor
        ProtoMinor := req.ProtoMinor
        Header := [("Content-Type", ["text/plain"])]
        Body := Body.text "Bad Gateway\n" }]) ∧
    responses ((proxyRequest net req).2 ++ [Event.write {
        StatusCode := 502
        Proto := req.Proto
        ProtoMajor := req.ProtoMajor
        ProtoMinor := req.ProtoMinor
        Header := [("Content-Type", ["text/plain"])]
        Body := Body.text "Bad Gateway\n" }]) =
      [{ StatusCode := 502
         Proto := req.Proto
         ProtoMajor := req.ProtoMajor
         ProtoMinor := req.ProtoMinor
         Header := [("Content-Type", ["text/plain"])]
         Body := Body.text "Bad Gateway\n" }] ∧
    (net.newRequest (upstreamURL req) = false ∨
      net.roundTrip (upstreamURL req) (copyHeader req.Header) =
        none) := by
  refine ⟨?_, ?_, (proxyRequest_fails_iff net req).1 hfail⟩
  · cases hp : proxyRequest net req with
    | mk r evs =>
      rw [hp] at hfail
      simp only at hfail
      subst hfail
      simp only [handleClient, ne_eq, not_true_eq_false, if_false, hget, hp, handleResponse,
        Header.Set, StatusText]
      simp
  · rw [responses_append, responses_proxyRequest]
    rfl

/-- C6 at a concrete input: `GET /` with `Host: localhost` when no host
answers. -/
theorem forwarding_failure_bad_gateway_witness :
    handleClient Demo.unreachable (some (Demo.fetch "/"), none) =
      Outcome.returned ((proxyRequest Demo.unreachable (Demo.fetch "/")).2 ++ [Event.write {
        StatusCode := 502
        Proto := "HTTP/1.1"
        ProtoMajor := 1
        ProtoMinor := 1
        Header := [("Content-Type", ["text/plain"])]
        Body := Body.text "Bad Gateway\n" }]) :=
  (forwarding_failure_bad_gateway Demo.unreachable (Demo.fetch "/") (by decide) (by decide)).1

end Proxy

end HttpServer
